import Mathlib

/-!
# Verification of the voice-allocation engine of steamcontrollersynth.py

Shallow embedding of the allocator class `steam_controller_mido_port`
(methods `single_voice`, `polyphony`, `_send`), of its constructor, and of
the file-playback routine `play_song`.  Stateful Python methods become pure
functions returning the new state together with the list of commands issued
to the hardware; a Python exception propagating out of a method becomes an
`Except.error`.  Commands are recorded as `(logical channel index, note)`
pairs, where the Python code derives `controller, haptic = i // 2, i % 2`
from the logical index before calling `steam_controller_play_note`.
-/

/-- `note_stop = -1`: sentinel note meaning "silence this channel". -/
def note_stop : Int := -1

/-- A `(source_channel, note)` pair, the payload stored in a queue slot by
the polyphony policy (the Python dict `{'channel': ..., 'note': ...}`). -/
abbrev Pair := Int × Int

/-- A command issued to the hardware: `(logical channel index, note)`, where
the note may be `note_stop`. -/
abbrev Cmd := Int × Int

/-- A mido message as the allocator sees it: a type tag plus optional
fields.  Reading an absent field models Python's `AttributeError` (e.g.
`mido.Message('stop')` carries no `channel`, `note` or `velocity`). -/
structure Msg where
  type : String
  channel : Option Int := none
  note : Option Int := none
  velocity : Option Int := none
deriving DecidableEq

/-- `mido.Message('note_on', channel=c, note=nt, velocity=v)`. -/
def mkNoteOn (c nt v : Int) : Msg :=
  { type := "note_on", channel := some c, note := some nt, velocity := some v }

/-- `mido.Message('note_off', channel=c, note=nt)` (default velocity 64). -/
def mkNoteOff (c nt : Int) : Msg :=
  { type := "note_off", channel := some c, note := some nt, velocity := some 64 }

/-- `mido.Message('stop')`: a system message carrying no channel/note/velocity. -/
def mkStop : Msg := { type := "stop" }

/-- Python attribute access `msg.field`: raises `AttributeError` when the
message does not carry the field. -/
def getattr (o : Option Int) (field : String) : Except String Int :=
  match o with
  | some v => .ok v
  | none => .error ("AttributeError: " ++ field)

/-- The allocator state (the attributes set by
`steam_controller_mido_port.__init__`).  `ncontrollers` is
`len(self.controllers)`; the identity of the USB device objects is
irrelevant to allocation, only the list length (used by Python list
indexing) matters. -/
structure SCState where
  ncontrollers : Nat
  channels : Int
  previous_notes : List Int
  debug : Bool
  logic : String
  queue : List (Option Pair)
deriving DecidableEq

/-- `__init__`: `self.channels = len(self.controllers)*2 - 1`,
`self.previous_notes = [0]*(self.channels+1)`,
`self.queue = [None]*(self.channels+1)`.  Note: no validation of `logic`
happens here. -/
def initState (n : Nat) (logic : String) : SCState :=
  { ncontrollers := n
  , channels := 2 * (n : Int) - 1
  , previous_notes := List.replicate (2 * n) 0
  , debug := false
  , logic := logic
  , queue := List.replicate (2 * n) none }

/-- Python list indexing `xs[i]` on a list of length `len` succeeds exactly
when `-len <= i < len` (negative indices count from the end). -/
def pyIndexOk (len : Nat) (i : Int) : Prop :=
  -(len : Int) ≤ i ∧ i < (len : Int)

instance (len : Nat) (i : Int) : Decidable (pyIndexOk len i) := by
  unfold pyIndexOk; infer_instance

/-- The call `steam_controller_play_note(self.controllers[controller],
haptic, note)`: evaluating `self.controllers[controller]` raises
`IndexError` when the index is out of Python range; otherwise the USB write
happens (USB errors are caught and printed inside
`steam_controller_play_note`, so they never propagate) and we record the
command `(key, note)` where `key` is the logical channel index from which
`controller` and `haptic` were derived. -/
def play (n : Nat) (controller : Int) (key note : Int) : Except String (List Cmd) :=
  if pyIndexOk n controller then .ok [(key, note)]
  else .error "IndexError: list index out of range"

/-- `steam_controller_mido_port.single_voice`.  Reads `msg.channel` first
(line 178), ignores the event when `msg.channel > self.channels`, otherwise
commands the pad `msg.channel // 2, msg.channel % 2`.  The method never
mutates any allocator state, so the state is returned unchanged. -/
def single_voice (st : SCState) (msg : Msg) : Except String (SCState × List Cmd) :=
  match getattr msg.channel "channel" with
  | .error e => .error e
  | .ok c =>
    if c ≤ st.channels then
      if msg.type = "note_on" then
        match getattr msg.velocity "velocity" with
        | .error e => .error e
        | .ok v =>
          if v = 0 then
            match play st.ncontrollers (Int.fdiv c 2) c note_stop with
            | .error e => .error e
            | .ok cs => .ok (st, cs)
          else
            match getattr msg.note "note" with
            | .error e => .error e
            | .ok nt =>
              match play st.ncontrollers (Int.fdiv c 2) c nt with
              | .error e => .error e
              | .ok cs => .ok (st, cs)
      else if msg.type = "note_off" then
        match play st.ncontrollers (Int.fdiv c 2) c note_stop with
        | .error e => .error e
        | .ok cs => .ok (st, cs)
      else .ok (st, [])
    else .ok (st, [])

/-- The `for i in range(len(self.queue))` loop of `polyphony` for a
note-on with velocity > 0, starting at index `i`: bind the first free slot
to `(msg.channel, msg.note)` and command `(that index, msg.note)`;
if every slot is occupied, fall off the loop (no command). -/
def polyBindAux (n : Nat) (msg : Msg) :
    List (Option Pair) → Nat → Except String (List (Option Pair) × List Cmd)
  | [], _ => .ok ([], [])
  | none :: rest, i =>
    match getattr msg.channel "channel" with
    | .error e => .error e
    | .ok c =>
      match getattr msg.note "note" with
      | .error e => .error e
      | .ok nt =>
        match play n (Int.fdiv (i : Int) 2) (i : Int) nt with
        | .error e => .error e
        | .ok cs => .ok (some (c, nt) :: rest, cs)
  | some q0 :: rest, i =>
    match polyBindAux n msg rest (i + 1) with
    | .error e => .error e
    | .ok r => .ok (some q0 :: r.1, r.2)

/-- The `for i in range(len(self.queue))` loop of `polyphony` for a
note-off (or velocity-zero note-on), starting at index `i`: clear the first
occupied slot whose pair equals `(msg.channel, msg.note)` and command
`(that index, note_stop)`; the comparison short-circuits (`msg.note` is
read only when the channel already matched). -/
def polyReleaseAux (n : Nat) (msg : Msg) :
    List (Option Pair) → Nat → Except String (List (Option Pair) × List Cmd)
  | [], _ => .ok ([], [])
  | none :: rest, i =>
    match polyReleaseAux n msg rest (i + 1) with
    | .error e => .error e
    | .ok r => .ok (none :: r.1, r.2)
  | some q0 :: rest, i =>
    match getattr msg.channel "channel" with
    | .error e => .error e
    | .ok c =>
      if q0.1 = c then
        match getattr msg.note "note" with
        | .error e => .error e
        | .ok nt =>
          if q0.2 = nt then
            match play n (Int.fdiv (i : Int) 2) (i : Int) note_stop with
            | .error e => .error e
            | .ok cs => .ok (none :: rest, cs)
          else
            match polyReleaseAux n msg rest (i + 1) with
            | .error e => .error e
            | .ok r => .ok (some q0 :: r.1, r.2)
      else
        match polyReleaseAux n msg rest (i + 1) with
        | .error e => .error e
        | .ok r => .ok (some q0 :: r.1, r.2)

/-- `steam_controller_mido_port.polyphony`: dispatch on `msg.type`
(`note_on` reads `msg.velocity`; any type other than `note_on`/`note_off`
does nothing). -/
def polyphony (st : SCState) (msg : Msg) : Except String (SCState × List Cmd) :=
  if msg.type = "note_on" then
    match getattr msg.velocity "velocity" with
    | .error e => .error e
    | .ok v =>
      if v = 0 then
        match polyReleaseAux st.ncontrollers msg st.queue 0 with
        | .error e => .error e
        | .ok r => .ok ({ st with queue := r.1 }, r.2)
      else
        match polyBindAux st.ncontrollers msg st.queue 0 with
        | .error e => .error e
        | .ok r => .ok ({ st with queue := r.1 }, r.2)
  else if msg.type = "note_off" then
    match polyReleaseAux st.ncontrollers msg st.queue 0 with
    | .error e => .error e
    | .ok r => .ok ({ st with queue := r.1 }, r.2)
  else .ok (st, [])

/-- The `for i in range(self.channels+1)` loop at the top of `_send` for a
`'stop'` message, over the listed indices. -/
def stopLoop (n : Nat) : List Nat → Except String (List Cmd)
  | [] => .ok []
  | i :: rest =>
    match play n (Int.fdiv (i : Int) 2) (i : Int) note_stop with
    | .error e => .error e
    | .ok cs =>
      match stopLoop n rest with
      | .error e => .error e
      | .ok cs' => .ok (cs ++ cs')

/-- The stop-all block of `_send`: issue `note_stop` on every logical
channel index `0 .. self.channels`. -/
def stopAll (st : SCState) : Except String (List Cmd) :=
  stopLoop st.ncontrollers (List.range (st.channels + 1).toNat)

/-- `steam_controller_mido_port._send`: on a `'stop'` message first issue
`note_stop` on every channel, then (unconditionally — no early return)
dispatch the message to the configured policy; an unknown `self.logic`
raises `ValueError`.  Returns the commands issued (including those issued
before an exception) and either the new state or the uncaught exception. -/
def sendMsg (st : SCState) (msg : Msg) : List Cmd × Except String SCState :=
  match (if msg.type = "stop" then stopAll st else .ok []) with
  | .error e => ([], .error e)
  | .ok stops =>
    if st.logic = "single_voice" then
      match single_voice st msg with
      | .ok r => (stops ++ r.2, .ok r.1)
      | .error e => (stops, .error e)
    else if st.logic = "polyphony" then
      match polyphony st msg with
      | .ok r => (stops ++ r.2, .ok r.1)
      | .error e => (stops, .error e)
    else (stops, .error ("Invalid logic type: " ++ st.logic))

/-- Send a list of messages in order (the `for msg in mid.play()` loop);
an uncaught exception aborts the loop. -/
def sendAll : SCState → List Msg → List Cmd × Except String SCState
  | st, [] => ([], .ok st)
  | st, m :: ms =>
    match sendMsg st m with
    | (cs, .ok st1) => (cs ++ (sendAll st1 ms).1, (sendAll st1 ms).2)
    | (cs, .error e) => (cs, .error e)

/-- `play_song(controllers, song, logic)` when the file plays to exhaustion
with no `KeyboardInterrupt`: construct the port, send every message of the
file in order, and return — nothing further is sent. -/
def play_song (n : Nat) (logic : String) (msgs : List Msg) :
    List Cmd × Except String SCState :=
  sendAll (initState n logic) msgs

/-- `play_song` when a `KeyboardInterrupt` arrives after the first `k`
messages: the `except` handler sends `mido.Message('stop')`. -/
def play_song_interrupted (n : Nat) (logic : String) (msgs : List Msg) (k : Nat) :
    List Cmd × Except String SCState :=
  match sendAll (initState n logic) (msgs.take k) with
  | (cs, .ok st) =>
    match sendMsg st mkStop with
    | (cs', r) => (cs ++ cs', r)
  | (cs, .error e) => (cs, .error e)

/-- The currently bound `(source_channel, note)` pairs of a queue, in slot
order. -/
def occ (q : List (Option Pair)) : List Pair := q.filterMap id

/-- A message is "fresh" for a state when, if it is a note-on with nonzero
velocity, its `(channel, note)` pair is not currently bound in the queue. -/
def freshB (st : SCState) (m : Msg) : Bool :=
  if m.type = "note_on" ∧ m.velocity ≠ some 0 then
    match m.channel, m.note with
    | some c, some nt => decide ((c, nt) ∉ occ st.queue)
    | _, _ => true
  else true

/-- Every message of the trace is fresh for the state at which it is
processed. -/
def freshTrace : SCState → List Msg → Bool
  | _, [] => true
  | st, m :: ms =>
    freshB st m &&
      (match (sendMsg st m).2 with
       | .ok st' => freshTrace st' ms
       | .error _ => true)

/-- The command list issued by the stop-all loop of `_send` for a port
driving `n` controllers: `note_stop` on every logical channel `0 .. 2n-1`. -/
def stopCmds (n : Nat) : List Cmd :=
  (List.range (2 * n)).map fun i => ((i : Int), note_stop)

/-! ## Basic lemmas -/

theorem getattr_ok {o : Option Int} {f : String} {v : Int}
    (h : getattr o f = .ok v) : o = some v := by
  cases o with
  | none => simp [getattr] at h
  | some a => simp [getattr] at h; rw [h]

@[simp] theorem occ_nil : occ [] = [] := rfl

@[simp] theorem occ_cons_none (l : List (Option Pair)) : occ (none :: l) = occ l := rfl

@[simp] theorem occ_cons_some (p : Pair) (l : List (Option Pair)) :
    occ (some p :: l) = p :: occ l := rfl

@[simp] theorem occ_append (l1 l2 : List (Option Pair)) :
    occ (l1 ++ l2) = occ l1 ++ occ l2 := by
  simp [occ, List.filterMap_append]

theorem occ_length_le (q : List (Option Pair)) : (occ q).length ≤ q.length :=
  List.length_filterMap_le id q

theorem pyIndexOk_half {n j : Nat} (h : j < 2 * n) :
    pyIndexOk n (Int.fdiv (j : Int) 2) := by
  rw [Int.fdiv_eq_ediv _ (by omega : (0:Int) ≤ 2)]
  constructor <;> omega

theorem play_nat {n j : Nat} (h : j < 2 * n) (note : Int) :
    play n (Int.fdiv (j : Int) 2) (j : Int) note = .ok [((j : Int), note)] := by
  simp [play, pyIndexOk_half h]

/-! ## Characterization of the polyphony note-on loop -/

theorem polyBindAux_full (n : Nat) (msg : Msg) :
    ∀ (q : List (Option Pair)) (i : Nat), (∀ s ∈ q, s ≠ none) →
      polyBindAux n msg q i = .ok (q, [])
  | [], _, _ => rfl
  | none :: _, _, h => absurd rfl (h none (by simp))
  | some q0 :: rest, i, h => by
    have ih := polyBindAux_full n msg rest (i + 1) (fun s hs => h s (by simp [hs]))
    simp [polyBindAux, ih]

theorem polyBindAux_free (n : Nat) (msg : Msg) (c nt : Int)
    (hc : msg.channel = some c) (hn : msg.note = some nt) :
    ∀ (a b : List (Option Pair)) (i : Nat), (∀ s ∈ a, s ≠ none) →
      pyIndexOk n (Int.fdiv ((i + a.length : Nat) : Int) 2) →
      polyBindAux n msg (a ++ none :: b) i
        = .ok (a ++ some (c, nt) :: b, [(((i + a.length : Nat) : Int), nt)])
  | [], b, i, _, hpy => by
    simp only [List.length_nil, Nat.add_zero] at hpy
    simp [polyBindAux, getattr, hc, hn, play, hpy]
  | none :: _, _, _, h, _ => absurd rfl (h none (by simp))
  | some q0 :: a', b, i, h, hpy => by
    have harith : i + (some q0 :: a').length = (i + 1) + a'.length := by
      simp; omega
    rw [harith] at hpy
    have ih := polyBindAux_free n msg c nt hc hn a' b (i + 1)
      (fun s hs => h s (by simp [hs])) hpy
    rw [harith]
    simp only [List.cons_append, polyBindAux, List.append_eq, ih]

theorem polyBindAux_sound (n : Nat) (msg : Msg) :
    ∀ (q : List (Option Pair)) (i : Nat) (r : List (Option Pair) × List Cmd),
      polyBindAux n msg q i = .ok r →
      r.1.length = q.length ∧
        (occ r.1 = occ q ∨
          ∃ c nt, msg.channel = some c ∧ msg.note = some nt ∧
            ∃ x y, occ q = x ++ y ∧ occ r.1 = x ++ (c, nt) :: y)
  | [], _, r, h => by
    simp only [polyBindAux, Except.ok.injEq] at h
    subst h
    simp
  | none :: rest, i, r, h => by
    cases hc : msg.channel with
    | none => simp [polyBindAux, getattr, hc] at h
    | some c =>
      cases hn : msg.note with
      | none => simp [polyBindAux, getattr, hc, hn] at h
      | some nt =>
        by_cases hp : pyIndexOk n (Int.fdiv (i : Int) 2)
        · simp only [polyBindAux, getattr, hc, hn, play, if_pos hp,
            Except.ok.injEq] at h
          subst h
          refine ⟨by simp, Or.inr ⟨c, nt, rfl, rfl, [], occ rest, by simp, by simp⟩⟩
        · simp [polyBindAux, getattr, hc, hn, play, if_neg hp] at h
  | some q0 :: rest, i, r, h => by
    cases hrec : polyBindAux n msg rest (i + 1) with
    | error e => simp [polyBindAux, hrec] at h
    | ok r0 =>
      simp only [polyBindAux, hrec, Except.ok.injEq] at h
      subst h
      obtain ⟨hlen, hocc⟩ := polyBindAux_sound n msg rest (i + 1) r0 hrec
      refine ⟨by simp [hlen], ?_⟩
      rcases hocc with heq | ⟨c, nt, hc, hn, x, y, hq, hr⟩
      · exact Or.inl (by simp [heq])
      · exact Or.inr ⟨c, nt, hc, hn, q0 :: x, y, by simp [hq], by simp [hr]⟩

/-! ## Characterization of the polyphony release loop -/

theorem polyReleaseAux_nomatch (n : Nat) (msg : Msg) (c nt : Int)
    (hc : msg.channel = some c) (hn : msg.note = some nt) :
    ∀ (q : List (Option Pair)) (i : Nat), (∀ s ∈ q, s ≠ some (c, nt)) →
      polyReleaseAux n msg q i = .ok (q, [])
  | [], _, _ => rfl
  | none :: rest, i, h => by
    have ih := polyReleaseAux_nomatch n msg c nt hc hn rest (i + 1)
      (fun s hs => h s (by simp [hs]))
    simp [polyReleaseAux, ih]
  | some q0 :: rest, i, h => by
    have ih := polyReleaseAux_nomatch n msg c nt hc hn rest (i + 1)
      (fun s hs => h s (by simp [hs]))
    have hq0 : q0 ≠ (c, nt) := fun he => (h (some q0) (by simp)) (by rw [he])
    by_cases h1 : q0.1 = c
    · have h2 : q0.2 ≠ nt := by
        intro h2
        exact hq0 (Prod.ext h1 h2)
      simp [polyReleaseAux, getattr, hc, hn, h1, h2, ih]
    · simp [polyReleaseAux, getattr, hc, h1, ih]

theorem polyReleaseAux_match (n : Nat) (msg : Msg) (c nt : Int)
    (hc : msg.channel = some c) (hn : msg.note = some nt) :
    ∀ (a b : List (Option Pair)) (i : Nat), (∀ s ∈ a, s ≠ some (c, nt)) →
      pyIndexOk n (Int.fdiv ((i + a.length : Nat) : Int) 2) →
      polyReleaseAux n msg (a ++ some (c, nt) :: b) i
        = .ok (a ++ none :: b, [(((i + a.length : Nat) : Int), note_stop)])
  | [], b, i, _, hpy => by
    simp only [List.length_nil, Nat.add_zero] at hpy
    simp [polyReleaseAux, getattr, hc, hn, play, hpy]
  | none :: a', b, i, h, hpy => by
    have harith : i + ((none : Option Pair) :: a').length = (i + 1) + a'.length := by
      simp; omega
    rw [harith] at hpy
    have ih := polyReleaseAux_match n msg c nt hc hn a' b (i + 1)
      (fun s hs => h s (by simp [hs])) hpy
    rw [harith]
    simp only [List.cons_append, polyReleaseAux, List.append_eq, ih]
  | some q0 :: a', b, i, h, hpy => by
    have harith : i + (some q0 :: a').length = (i + 1) + a'.length := by
      simp; omega
    rw [harith] at hpy
    have ih := polyReleaseAux_match n msg c nt hc hn a' b (i + 1)
      (fun s hs => h s (by simp [hs])) hpy
    have hq0 : q0 ≠ (c, nt) := fun he => (h (some q0) (by simp)) (by rw [he])
    rw [harith]
    by_cases h1 : q0.1 = c
    · have h2 : q0.2 ≠ nt := by
        intro h2
        exact hq0 (Prod.ext h1 h2)
      simp only [List.cons_append, polyReleaseAux, getattr, hc, hn, h1, if_pos,
        h2, if_neg, List.append_eq, ih]
      simp [h2]
    · simp only [List.cons_append, polyReleaseAux, getattr, hc, List.append_eq, ih]
      simp [h1]

theorem polyReleaseAux_sound (n : Nat) (msg : Msg) :
    ∀ (q : List (Option Pair)) (i : Nat) (r : List (Option Pair) × List Cmd),
      polyReleaseAux n msg q i = .ok r →
      r.1.length = q.length ∧ List.Sublist (occ r.1) (occ q)
  | [], _, r, h => by
    simp only [polyReleaseAux, Except.ok.injEq] at h
    subst h
    simp
  | none :: rest, i, r, h => by
    cases hrec : polyReleaseAux n msg rest (i + 1) with
    | error e => simp [polyReleaseAux, hrec] at h
    | ok r0 =>
      simp only [polyReleaseAux, hrec, Except.ok.injEq] at h
      subst h
      obtain ⟨hlen, hsub⟩ := polyReleaseAux_sound n msg rest (i + 1) r0 hrec
      exact ⟨by simp [hlen], by simpa using hsub⟩
  | some q0 :: rest, i, r, h => by
    cases hc : msg.channel with
    | none => simp [polyReleaseAux, getattr, hc] at h
    | some c =>
      by_cases h1 : q0.1 = c
      · cases hn : msg.note with
        | none => simp [polyReleaseAux, getattr, hc, hn, h1] at h
        | some nt =>
          by_cases h2 : q0.2 = nt
          · by_cases hp : pyIndexOk n (Int.fdiv (i : Int) 2)
            · simp only [polyReleaseAux, getattr, hc, hn, h1, if_pos, h2, play,
                if_pos hp, Except.ok.injEq] at h
              subst h
              refine ⟨by simp, ?_⟩
              simp
            · simp [polyReleaseAux, getattr, hc, hn, h1, h2, play, if_neg hp] at h
          · have hstep : polyReleaseAux n msg (some q0 :: rest) i
                = match polyReleaseAux n msg rest (i + 1) with
                  | .error e => (.error e : Except String (List (Option Pair) × List Cmd))
                  | .ok r0 => .ok (some q0 :: r0.1, r0.2) := by
              simp [polyReleaseAux, getattr, hc, hn, h1, h2]
            rw [hstep] at h
            cases hrec : polyReleaseAux n msg rest (i + 1) with
            | error e => rw [hrec] at h; simp at h
            | ok r0 =>
              rw [hrec] at h
              simp only [Except.ok.injEq] at h
              subst h
              obtain ⟨hlen, hsub⟩ := polyReleaseAux_sound n msg rest (i + 1) r0 hrec
              refine ⟨by simp [hlen], ?_⟩
              simpa using List.Sublist.cons₂ q0 hsub
      · have hstep : polyReleaseAux n msg (some q0 :: rest) i
            = match polyReleaseAux n msg rest (i + 1) with
              | .error e => (.error e : Except String (List (Option Pair) × List Cmd))
              | .ok r0 => .ok (some q0 :: r0.1, r0.2) := by
          simp [polyReleaseAux, getattr, hc, h1]
        rw [hstep] at h
        cases hrec : polyReleaseAux n msg rest (i + 1) with
        | error e => rw [hrec] at h; simp at h
        | ok r0 =>
          rw [hrec] at h
          simp only [Except.ok.injEq] at h
          subst h
          obtain ⟨hlen, hsub⟩ := polyReleaseAux_sound n msg rest (i + 1) r0 hrec
          refine ⟨by simp [hlen], ?_⟩
          simpa using List.Sublist.cons₂ q0 hsub

/-! ## State preservation -/

@[simp] theorem occ_replicate_none (k : Nat) :
    occ (List.replicate k none) = [] := by
  induction k with
  | zero => rfl
  | succ k ih => simpa [List.replicate] using ih

theorem single_voice_state (st : SCState) (msg : Msg) (r : SCState × List Cmd)
    (h : single_voice st msg = .ok r) : r.1 = st := by
  unfold single_voice at h
  repeat' split at h
  all_goals first
    | exact (congrArg Prod.fst (Except.ok.inj h)).symm
    | simp at h

theorem polyphony_state (st : SCState) (msg : Msg) (r : SCState × List Cmd)
    (h : polyphony st msg = .ok r) : ∃ q, r.1 = { st with queue := q } := by
  unfold polyphony at h
  repeat' split at h
  all_goals first
    | exact ⟨_, (congrArg Prod.fst (Except.ok.inj h)).symm⟩
    | exact ⟨st.queue, (congrArg Prod.fst (Except.ok.inj h)).symm⟩
    | simp at h

theorem queue_release_ok (n : Nat) (m : Msg) (q : List (Option Pair))
    (r0 : List (Option Pair) × List Cmd) (h : polyReleaseAux n m q 0 = .ok r0) :
    r0.1.length = q.length ∧ ((occ q).Nodup → (occ r0.1).Nodup) :=
  have s := polyReleaseAux_sound n m q 0 r0 h
  ⟨s.1, fun hnd => hnd.sublist s.2⟩

theorem queue_bind_ok (n : Nat) (m : Msg) (q : List (Option Pair))
    (r0 : List (Option Pair) × List Cmd) (h : polyBindAux n m q 0 = .ok r0)
    (hfr : ∀ c nt, m.channel = some c → m.note = some nt → (c, nt) ∉ occ q) :
    r0.1.length = q.length ∧ ((occ q).Nodup → (occ r0.1).Nodup) := by
  obtain ⟨hlen, hocc⟩ := polyBindAux_sound n m q 0 r0 h
  refine ⟨hlen, fun hnd => ?_⟩
  rcases hocc with heq | ⟨c, nt, hc, hn, x, y, hq, hr⟩
  · rw [heq]; exact hnd
  · rw [hr]
    refine List.nodup_middle.mpr (List.nodup_cons.mpr ⟨?_, hq ▸ hnd⟩)
    have hni := hfr c nt hc hn
    rw [hq] at hni
    exact hni

theorem freshB_spec (st : SCState) (m : Msg) (v : Int)
    (hty : m.type = "note_on") (hv : m.velocity = some v) (hv0 : v ≠ 0)
    (hf : freshB st m = true) :
    ∀ c nt, m.channel = some c → m.note = some nt → (c, nt) ∉ occ st.queue := by
  intro c nt hc hn
  unfold freshB at hf
  rw [if_pos ⟨hty, by rw [hv]; intro he; exact hv0 (Option.some.inj he)⟩,
    hc, hn] at hf
  exact of_decide_eq_true hf

theorem sendMsg_polyphony (st : SCState) (m : Msg) (hl : st.logic = "polyphony") :
    sendMsg st m =
      match (if m.type = "stop" then stopAll st else .ok []) with
      | .error e => ([], .error e)
      | .ok stops =>
        match polyphony st m with
        | .ok r => (stops ++ r.2, .ok r.1)
        | .error e => (stops, .error e) := by
  unfold sendMsg
  rw [hl]
  cases hX : (if m.type = "stop" then stopAll st else .ok []) with
  | error e => rfl
  | ok stops =>
    simp only []
    simp

theorem sendMsg_single (st : SCState) (m : Msg) (hl : st.logic = "single_voice") :
    sendMsg st m =
      match (if m.type = "stop" then stopAll st else .ok []) with
      | .error e => ([], .error e)
      | .ok stops =>
        match single_voice st m with
        | .ok r => (stops ++ r.2, .ok r.1)
        | .error e => (stops, .error e) := by
  unfold sendMsg
  rw [hl]
  cases hX : (if m.type = "stop" then stopAll st else .ok []) with
  | error e => rfl
  | ok stops =>
    simp only []
    simp

theorem sendMsg_invalid (st : SCState) (m : Msg)
    (h1 : st.logic ≠ "single_voice") (h2 : st.logic ≠ "polyphony") :
    sendMsg st m =
      match (if m.type = "stop" then stopAll st else .ok []) with
      | .error e => ([], .error e)
      | .ok stops => (stops, .error ("Invalid logic type: " ++ st.logic)) := by
  unfold sendMsg
  cases hX : (if m.type = "stop" then stopAll st else .ok []) with
  | error e => rfl
  | ok stops =>
    simp only []
    rw [if_neg h1, if_neg h2]

theorem sendMsg_poly_step (st st' : SCState) (m : Msg) (cs : List Cmd)
    (hl : st.logic = "polyphony") (h : sendMsg st m = (cs, .ok st')) :
    st'.ncontrollers = st.ncontrollers ∧ st'.channels = st.channels ∧
    st'.logic = st.logic ∧ st'.queue.length = st.queue.length ∧
    ((occ st.queue).Nodup → freshB st m = true → (occ st'.queue).Nodup) := by
  rw [sendMsg_polyphony st m hl] at h
  cases hstop : (if m.type = "stop" then stopAll st else .ok []) with
  | error e => rw [hstop] at h; simp at h
  | ok stops =>
    rw [hstop] at h
    simp only [] at h
    cases hp : polyphony st m with
    | error e => rw [hp] at h; simp at h
    | ok r =>
      rw [hp] at h
      simp only [Prod.mk.injEq, Except.ok.injEq] at h
      have hst' : st' = r.1 := h.2.symm
      subst hst'
      clear h
      unfold polyphony at hp
      by_cases hty : m.type = "note_on"
      · rw [if_pos hty] at hp
        cases hv : getattr m.velocity "velocity" with
        | error e => rw [hv] at hp; simp at hp
        | ok v =>
          rw [hv] at hp
          simp only [] at hp
          by_cases hv0 : v = 0
          · rw [if_pos hv0] at hp
            cases hrel : polyReleaseAux st.ncontrollers m st.queue 0 with
            | error e => rw [hrel] at hp; simp at hp
            | ok r0 =>
              rw [hrel] at hp
              have hr : r = ({ st with queue := r0.1 }, r0.2) :=
                (Except.ok.inj hp).symm
              subst hr
              obtain ⟨hlen, hnd⟩ := queue_release_ok st.ncontrollers m st.queue r0 hrel
              exact ⟨rfl, rfl, rfl, hlen, fun a _ => hnd a⟩
          · rw [if_neg hv0] at hp
            cases hbind : polyBindAux st.ncontrollers m st.queue 0 with
            | error e => rw [hbind] at hp; simp at hp
            | ok r0 =>
              rw [hbind] at hp
              have hr : r = ({ st with queue := r0.1 }, r0.2) :=
                (Except.ok.inj hp).symm
              subst hr
              refine ⟨rfl, rfl, rfl, ?_, ?_⟩
              · exact (polyBindAux_sound st.ncontrollers m st.queue 0 r0 hbind).1
              · intro hnd hf
                have hfr := freshB_spec st m v hty (getattr_ok hv) hv0 hf
                exact (queue_bind_ok st.ncontrollers m st.queue r0 hbind hfr).2 hnd
      · rw [if_neg hty] at hp
        by_cases hty2 : m.type = "note_off"
        · rw [if_pos hty2] at hp
          cases hrel : polyReleaseAux st.ncontrollers m st.queue 0 with
          | error e => rw [hrel] at hp; simp at hp
          | ok r0 =>
            rw [hrel] at hp
            have hr : r = ({ st with queue := r0.1 }, r0.2) :=
              (Except.ok.inj hp).symm
            subst hr
            obtain ⟨hlen, hnd⟩ := queue_release_ok st.ncontrollers m st.queue r0 hrel
            exact ⟨rfl, rfl, rfl, hlen, fun a _ => hnd a⟩
        · rw [if_neg hty2] at hp
          have hr : r = (st, []) := (Except.ok.inj hp).symm
          subst hr
          exact ⟨rfl, rfl, rfl, rfl, fun a _ => a⟩

theorem sendAll_poly_run :
    ∀ (msgs : List Msg) (st st' : SCState), st.logic = "polyphony" →
      (sendAll st msgs).2 = .ok st' →
      st'.ncontrollers = st.ncontrollers ∧ st'.channels = st.channels ∧
      st'.logic = st.logic ∧ st'.queue.length = st.queue.length ∧
      ((occ st.queue).Nodup → freshTrace st msgs = true → (occ st'.queue).Nodup)
  | [], st, st', _, h => by
    simp only [sendAll] at h
    have : st = st' := Except.ok.inj h
    subst this
    exact ⟨rfl, rfl, rfl, rfl, fun a _ => a⟩
  | m :: ms, st, st', hl, h => by
    unfold sendAll at h
    cases hsm : sendMsg st m with
    | mk cs r =>
      rw [hsm] at h
      cases r with
      | error e => simp at h
      | ok st1 =>
        obtain ⟨hn1, hc1, hl1, hq1, hnd1⟩ := sendMsg_poly_step st st1 m cs hl hsm
        have hrec : (sendAll st1 ms).2 = .ok st' := by simpa using h
        have ih := sendAll_poly_run ms st1 st' (by rw [hl1, hl]) hrec
        refine ⟨by rw [ih.1, hn1], by rw [ih.2.1, hc1], by rw [ih.2.2.1, hl1],
          by rw [ih.2.2.2.1, hq1], ?_⟩
        intro hnd htr
        unfold freshTrace at htr
        rw [hsm] at htr
        rw [Bool.and_eq_true] at htr
        exact ih.2.2.2.2 (hnd1 hnd htr.1) htr.2

/-! ## The stop-all block and field preservation -/

theorem pyIndexOk_int (n : Nat) (c : Int) (h0 : 0 ≤ c) (h1 : c < 2 * (n : Int)) :
    pyIndexOk n (Int.fdiv c 2) := by
  rw [Int.fdiv_eq_ediv _ (by omega : (0:Int) ≤ 2)]
  constructor <;> omega

theorem stopLoop_ok (n : Nat) :
    ∀ (l : List Nat), (∀ i ∈ l, i < 2 * n) →
      stopLoop n l = .ok (l.map fun i => ((i : Int), note_stop))
  | [], _ => rfl
  | i :: rest, h => by
    have hp := play_nat (h i (by simp)) note_stop
    have ih := stopLoop_ok n rest (fun j hj => h j (by simp [hj]))
    simp [stopLoop, hp, ih]

theorem stopAll_ok (st : SCState) (n : Nat) (hn : st.ncontrollers = n)
    (hch : st.channels = 2 * (n : Int) - 1) :
    stopAll st = .ok (stopCmds n) := by
  unfold stopAll stopCmds
  rw [hn, hch]
  have h2n : ((2 * (n : Int) - 1) + 1).toNat = 2 * n := by omega
  rw [h2n]
  exact stopLoop_ok n (List.range (2 * n)) (fun i hi => List.mem_range.mp hi)

theorem sendMsg_fields (st st' : SCState) (m : Msg) (cs : List Cmd)
    (h : sendMsg st m = (cs, .ok st')) :
    st'.ncontrollers = st.ncontrollers ∧ st'.channels = st.channels ∧
    st'.logic = st.logic ∧ st'.previous_notes = st.previous_notes := by
  by_cases h1 : st.logic = "single_voice"
  · rw [sendMsg_single st m h1] at h
    cases hstop : (if m.type = "stop" then stopAll st else .ok []) with
    | error e => rw [hstop] at h; simp at h
    | ok stops =>
      rw [hstop] at h
      simp only [] at h
      cases hsv : single_voice st m with
      | error e => rw [hsv] at h; simp at h
      | ok r =>
        rw [hsv] at h
        simp only [Prod.mk.injEq, Except.ok.injEq] at h
        rw [← h.2, single_voice_state st m r hsv]
        exact ⟨rfl, rfl, rfl, rfl⟩
  · by_cases h2 : st.logic = "polyphony"
    · rw [sendMsg_polyphony st m h2] at h
      cases hstop : (if m.type = "stop" then stopAll st else .ok []) with
      | error e => rw [hstop] at h; simp at h
      | ok stops =>
        rw [hstop] at h
        simp only [] at h
        cases hp : polyphony st m with
        | error e => rw [hp] at h; simp at h
        | ok r =>
          rw [hp] at h
          simp only [Prod.mk.injEq, Except.ok.injEq] at h
          obtain ⟨q, hq⟩ := polyphony_state st m r hp
          rw [← h.2, hq]
          exact ⟨rfl, rfl, rfl, rfl⟩
    · rw [sendMsg_invalid st m h1 h2] at h
      cases hstop : (if m.type = "stop" then stopAll st else .ok []) with
      | error e => rw [hstop] at h; simp at h
      | ok stops => rw [hstop] at h; simp at h

theorem sendAll_fields :
    ∀ (msgs : List Msg) (st st' : SCState), (sendAll st msgs).2 = .ok st' →
      st'.ncontrollers = st.ncontrollers ∧ st'.channels = st.channels ∧
      st'.logic = st.logic ∧ st'.previous_notes = st.previous_notes
  | [], st, st', h => by
    simp only [sendAll] at h
    have : st = st' := Except.ok.inj h
    subst this
    exact ⟨rfl, rfl, rfl, rfl⟩
  | m :: ms, st, st', h => by
    unfold sendAll at h
    cases hsm : sendMsg st m with
    | mk cs r =>
      rw [hsm] at h
      cases r with
      | error e => simp at h
      | ok st1 =>
        have hrec : (sendAll st1 ms).2 = .ok st' := by simpa using h
        have h1 := sendMsg_fields st st1 m cs hsm
        have ih := sendAll_fields ms st1 st' hrec
        exact ⟨by rw [ih.1, h1.1], by rw [ih.2.1, h1.2.1],
          by rw [ih.2.2.1, h1.2.2.1], by rw [ih.2.2.2, h1.2.2.2]⟩

theorem sendMsg_stop_cmds (st : SCState) (n : Nat) (hn : st.ncontrollers = n)
    (hch : st.channels = 2 * (n : Int) - 1) :
    ∃ rest outc, sendMsg st mkStop = (stopCmds n ++ rest, outc) := by
  unfold sendMsg
  have hif : (if mkStop.type = "stop" then stopAll st
      else (Except.ok [] : Except String (List Cmd))) = stopAll st := if_pos rfl
  rw [hif, stopAll_ok st n hn hch]
  simp only []
  by_cases h1 : st.logic = "single_voice"
  · rw [if_pos h1]
    cases hsv : single_voice st mkStop with
    | error e => exact ⟨[], .error e, by simp⟩
    | ok r => exact ⟨r.2, .ok r.1, by simp⟩
  · rw [if_neg h1]
    by_cases h2 : st.logic = "polyphony"
    · rw [if_pos h2]
      cases hp : polyphony st mkStop with
      | error e => exact ⟨[], .error e, by simp⟩
      | ok r => exact ⟨r.2, .ok r.1, by simp⟩
    · rw [if_neg h2]
      exact ⟨[], .error ("Invalid logic type: " ++ st.logic), by simp⟩

/-! ## Claim theorems -/

/-- C10: `_send` does not return early after handling a `'stop'` message: it
issues `note_stop` on every physical channel and then dispatches the same
message to the policy handler; under `single_voice` that handler immediately
reads `msg.channel`, which a `'stop'` message does not carry, so the
`AttributeError` branch of that field access is reached. -/
theorem C10_stop_message_attribute_error (st : SCState) (n : Nat)
    (hl : st.logic = "single_voice") (hn : st.ncontrollers = n)
    (hch : st.channels = 2 * (n : Int) - 1) :
    sendMsg st mkStop = (stopCmds n, .error "AttributeError: channel") := by
  rw [sendMsg_single st mkStop hl]
  have hif : (if mkStop.type = "stop" then stopAll st
      else (Except.ok [] : Except String (List Cmd))) = stopAll st := if_pos rfl
  rw [hif, stopAll_ok st n hn hch]
  simp only []
  have hsv : single_voice st mkStop = .error "AttributeError: channel" := rfl
  rw [hsv]

/-- Witness for C10 at a freshly constructed single-voice port. -/
theorem C10_stop_message_attribute_error_witness :
    sendMsg (initState 1 "single_voice") mkStop
      = (stopCmds 1, .error "AttributeError: channel") :=
  C10_stop_message_attribute_error (initState 1 "single_voice") 1 rfl rfl rfl

/-- C8: under single-voice, a velocity-zero note-on for an in-range channel
`c` issues exactly `(c, note_stop)` and is indistinguishable (commands and
resulting state) from a note-off for the same `(c, note)`. -/
theorem C8_velocity_zero_equals_note_off (st : SCState) (c nt : Int)
    (h0 : 0 ≤ c) (hle : c ≤ st.channels)
    (hch : st.channels = 2 * (st.ncontrollers : Int) - 1) :
    single_voice st (mkNoteOn c nt 0) = .ok (st, [(c, note_stop)]) ∧
    single_voice st (mkNoteOn c nt 0) = single_voice st (mkNoteOff c nt) := by
  have hpy : pyIndexOk st.ncontrollers (Int.fdiv c 2) :=
    pyIndexOk_int st.ncontrollers c h0 (by omega)
  constructor
  · simp [single_voice, getattr, mkNoteOn, hle, play, hpy]
  · simp [single_voice, getattr, mkNoteOn, mkNoteOff, hle, play, hpy]

/-- Witness for C8 on channel 0, note 60 of a one-controller port. -/
theorem C8_velocity_zero_equals_note_off_witness :
    single_voice (initState 1 "single_voice") (mkNoteOn 0 60 0)
      = .ok (initState 1 "single_voice", [(0, note_stop)]) ∧
    single_voice (initState 1 "single_voice") (mkNoteOn 0 60 0)
      = single_voice (initState 1 "single_voice") (mkNoteOff 0 60) :=
  C8_velocity_zero_equals_note_off (initState 1 "single_voice") 0 60
    (by decide) (by decide) (by decide)

/-- C5 (amended): under single-voice only the upper bound is checked —
events whose source channel exceeds `self.channels` are silently ignored
(no command, no state change); a negative source channel is NOT ignored. -/
theorem C5_out_of_range_ignored (st : SCState) (msg : Msg) (c : Int)
    (hc : msg.channel = some c) (hgt : st.channels < c) :
    single_voice st msg = .ok (st, []) := by
  unfold single_voice
  have hga : getattr msg.channel "channel" = .ok c := by rw [hc]; rfl
  rw [hga]
  simp only []
  rw [if_neg (by omega : ¬ c ≤ st.channels)]

/-- Witness for C5 at source channel 5 on a one-controller port. -/
theorem C5_out_of_range_ignored_witness :
    single_voice (initState 1 "single_voice") (mkNoteOn 5 60 100)
      = .ok (initState 1 "single_voice", []) :=
  C5_out_of_range_ignored (initState 1 "single_voice") (mkNoteOn 5 60 100) 5
    rfl (by decide)

/-- C5 counterexample: a note-on with negative source channel `-1` is not
silently ignored — the guard `msg.channel <= self.channels` passes and a
command is issued (Python indexes `controllers[-1]` from the end). -/
theorem C5_negative_channel_counterexample :
    single_voice (initState 1 "single_voice") (mkNoteOn (-1) 60 100)
      = .ok (initState 1 "single_voice", [((-1 : Int), (60 : Int))])
    ∧ ([((-1 : Int), (60 : Int))] : List Cmd) ≠ [] :=
  ⟨rfl, by decide⟩

/-- C9 (amended): `previous_notes` is set to `[0]*2N` by the constructor
and never modified afterwards — `single_voice` returns every state field,
including `previous_notes`, unchanged; no entry is ever overwritten with a
played note or with `note_stop`. -/
theorem C9_previous_notes_never_updated :
    (∀ (n : Nat) (l : String),
        (initState n l).previous_notes = List.replicate (2 * n) 0)
    ∧ (∀ (st : SCState) (msg : Msg) (r : SCState × List Cmd),
        single_voice st msg = .ok r → r.1.previous_notes = st.previous_notes) :=
  ⟨fun _ _ => rfl, fun st msg r h => by rw [single_voice_state st msg r h]⟩

/-- Witness for C9: constructor state and a processed note-on. -/
theorem C9_previous_notes_never_updated_witness :
    (initState 1 "single_voice").previous_notes = List.replicate (2 * 1) 0 ∧
    (initState 1 "single_voice").previous_notes
      = (initState 1 "single_voice").previous_notes :=
  ⟨C9_previous_notes_never_updated.1 1 "single_voice",
   C9_previous_notes_never_updated.2 (initState 1 "single_voice")
     (mkNoteOn 0 60 100) (initState 1 "single_voice", [(0, 60)]) rfl⟩

/-- C9 counterexample: after an in-range note-on (channel 0, note 60,
velocity 100) the record `previous_notes` still reads `[0, 0]` — it is not
overwritten with 60 as the claim states. -/
theorem C9_not_overwritten_counterexample :
    single_voice (initState 1 "single_voice") (mkNoteOn 0 60 100)
      = .ok (initState 1 "single_voice", [((0 : Int), (60 : Int))])
    ∧ (initState 1 "single_voice").previous_notes = [0, 0]
    ∧ ((0 : Int) ≠ (60 : Int)) :=
  ⟨rfl, rfl, by decide⟩

/-- C4 (amended): the constructor accepts any policy name without
validation; an unrecognized policy name raises
`ValueError('Invalid logic type: ...')` on every dispatched event —
i.e. mid-stream, not at startup. -/
theorem C4_policy_error_per_event (n : Nat) (logic : String) (msg : Msg)
    (h1 : logic ≠ "single_voice") (h2 : logic ≠ "polyphony") :
    (initState n logic).logic = logic ∧
    (sendMsg (initState n logic) msg).2
      = .error ("Invalid logic type: " ++ logic) := by
  refine ⟨rfl, ?_⟩
  rw [sendMsg_invalid (initState n logic) msg h1 h2]
  by_cases hstop : msg.type = "stop"
  · rw [if_pos hstop, stopAll_ok (initState n logic) n rfl rfl]
    rfl
  · rw [if_neg hstop]
    rfl

/-- Witness for C4 with policy name "bogus". -/
theorem C4_policy_error_per_event_witness :
    (initState 1 "bogus").logic = "bogus" ∧
    (sendMsg (initState 1 "bogus") (mkNoteOn 0 60 100)).2
      = .error ("Invalid logic type: " ++ "bogus") :=
  C4_policy_error_per_event 1 "bogus" (mkNoteOn 0 60 100) (by decide) (by decide)

/-- C4 counterexample: constructing a port with policy "bogus" raises
nothing (the state is built), yet dispatching an ordinary note-on raises
the policy-name error mid-stream — contradicting "no policy-name error is
ever raised mid-stream". -/
theorem C4_midstream_error_counterexample :
    (sendMsg (initState 1 "bogus") (mkNoteOn 0 60 100)).2
      = .error "Invalid logic type: bogus" := rfl

/-- C3 (amended): a `'stop'` message under the polyphony policy issues
`(i, note_stop)` for every physical channel `0 .. 2N-1` unconditionally,
but the state — including every slot of `self.queue` — is returned
unchanged: the queue is NOT cleared (the polyphony handler ignores
messages that are neither note-on nor note-off). -/
theorem C3_stop_all_commands_queue_kept (st : SCState) (n : Nat)
    (hl : st.logic = "polyphony") (hn : st.ncontrollers = n)
    (hch : st.channels = 2 * (n : Int) - 1) :
    sendMsg st mkStop = (stopCmds n, .ok st) := by
  rw [sendMsg_polyphony st mkStop hl]
  have hif : (if mkStop.type = "stop" then stopAll st
      else (Except.ok [] : Except String (List Cmd))) = stopAll st := if_pos rfl
  rw [hif, stopAll_ok st n hn hch]
  simp only []
  have hp : polyphony st mkStop = .ok (st, []) := rfl
  rw [hp]
  simp

/-- Witness for C3 at a port with one occupied slot. -/
theorem C3_stop_all_commands_queue_kept_witness :
    sendMsg { initState 1 "polyphony" with queue := [some (0, 60), none] } mkStop
      = (stopCmds 1,
         .ok { initState 1 "polyphony" with queue := [some (0, 60), none] }) :=
  C3_stop_all_commands_queue_kept
    { initState 1 "polyphony" with queue := [some (0, 60), none] } 1 rfl rfl rfl

/-- C3 counterexample: after a `'stop'` message the occupied slot
`(0, 60)` is still bound — the queue is not cleared to all-`None` as the
claim states. -/
theorem C3_queue_not_cleared_counterexample :
    (sendMsg { initState 1 "polyphony" with queue := [some (0, 60), none] }
        mkStop).2
      = .ok { initState 1 "polyphony" with queue := [some (0, 60), none] }
    ∧ ([some ((0 : Int), (60 : Int)), none] : List (Option Pair))
        ≠ List.replicate 2 none :=
  ⟨rfl, by decide⟩

/-- C2 (amended): `play_song` issues the stop-all command set only when
playback is cancelled by a `KeyboardInterrupt` (whose handler sends a
`'stop'` message): after any successfully processed prefix, the interrupt
path appends `note_stop` on every physical channel.  On normal file
exhaustion no stop-all is issued (see the counterexample). -/
theorem C2_stop_all_only_on_interrupt (n : Nat) (logic : String)
    (msgs : List Msg) (k : Nat) (cs : List Cmd) (st : SCState)
    (h : sendAll (initState n logic) (msgs.take k) = (cs, .ok st)) :
    ∃ rest outc,
      play_song_interrupted n logic msgs k
        = (cs ++ (stopCmds n ++ rest), outc) := by
  have hf := sendAll_fields (msgs.take k) (initState n logic) st (by rw [h])
  obtain ⟨rest, outc, hs⟩ :=
    sendMsg_stop_cmds st n (by rw [hf.1]; rfl) (by rw [hf.2.1]; rfl)
  refine ⟨rest, outc, ?_⟩
  unfold play_song_interrupted
  rw [h]
  simp only []
  rw [hs]

/-- Witness for C2: interrupting immediately after zero messages. -/
theorem C2_stop_all_only_on_interrupt_witness :
    ∃ rest outc, play_song_interrupted 1 "polyphony" [] 0
      = ([] ++ (stopCmds 1 ++ rest), outc) :=
  C2_stop_all_only_on_interrupt 1 "polyphony" [] 0 [] (initState 1 "polyphony") rfl

/-- C2 counterexample: a file consisting of a single note-on plays to
exhaustion and `play_song` returns with `(0, 60)` as the only — hence
last — command issued on channel 0, which is not `note_stop`: no stop-all
is issued on normal termination. -/
theorem C2_no_stop_on_normal_end_counterexample :
    play_song 1 "single_voice" [mkNoteOn 0 60 100]
      = ([((0 : Int), (60 : Int))], .ok (initState 1 "single_voice"))
    ∧ ((60 : Int) ≠ note_stop) :=
  ⟨rfl, by decide⟩

theorem polyphony_note_on (st : SCState) (c nt v : Int) :
    polyphony st (mkNoteOn c nt v)
      = (if v = 0 then
           match polyReleaseAux st.ncontrollers (mkNoteOn c nt v) st.queue 0 with
           | .error e => .error e
           | .ok r => .ok ({ st with queue := r.1 }, r.2)
         else
           match polyBindAux st.ncontrollers (mkNoteOn c nt v) st.queue 0 with
           | .error e => .error e
           | .ok r => .ok ({ st with queue := r.1 }, r.2)) := rfl

theorem polyphony_note_off (st : SCState) (c nt : Int) :
    polyphony st (mkNoteOff c nt)
      = match polyReleaseAux st.ncontrollers (mkNoteOff c nt) st.queue 0 with
        | .error e => .error e
        | .ok r => .ok ({ st with queue := r.1 }, r.2) := rfl

/-- C6: under polyphony a note-on with velocity > 0 binds the
lowest-indexed free slot to `(channel, note)` and issues exactly the one
command `(that slot, note)`; when every slot is occupied the event is
dropped: no command, no state change (no stealing).  The 4-channel
scenario `note_on(0,60,100)`, `note_on(0,64,100)`, `note_off(0,60)` yields
exactly the commands `(0,60)`, `(1,64)`, `(0,STOP)`, with slot 0 free
afterwards. -/
theorem C6_polyphony_note_on_allocation :
    (∀ (st : SCState) (c nt v : Int) (a b : List (Option Pair)),
        v ≠ 0 → st.queue = a ++ none :: b → (∀ s ∈ a, s ≠ none) →
        st.queue.length = 2 * st.ncontrollers →
        polyphony st (mkNoteOn c nt v)
          = .ok ({ st with queue := a ++ some (c, nt) :: b },
                 [((a.length : Int), nt)]))
    ∧ (∀ (st : SCState) (c nt v : Int), v ≠ 0 → (∀ s ∈ st.queue, s ≠ none) →
        polyphony st (mkNoteOn c nt v) = .ok (st, []))
    ∧ sendAll (initState 2 "polyphony")
        [mkNoteOn 0 60 100, mkNoteOn 0 64 100, mkNoteOff 0 60]
        = ([(0, 60), (1, 64), (0, note_stop)],
           .ok { initState 2 "polyphony" with
                 queue := [none, some (0, 64), none, none] }) := by
  refine ⟨?_, ?_, by rfl⟩
  · intro st c nt v a b hv0 hq hfree hlen
    have halen : a.length < 2 * st.ncontrollers := by
      have hl2 := congrArg List.length hq
      simp at hl2
      omega
    have hpy : pyIndexOk st.ncontrollers
        (Int.fdiv ((0 + a.length : Nat) : Int) 2) :=
      pyIndexOk_half (by omega)
    have hbind := polyBindAux_free st.ncontrollers (mkNoteOn c nt v) c nt
      rfl rfl a b 0 hfree hpy
    rw [polyphony_note_on, if_neg hv0, hq, hbind]
    simp only []
    norm_num
  · intro st c nt v hv0 hfull
    rw [polyphony_note_on, if_neg hv0,
      polyBindAux_full st.ncontrollers (mkNoteOn c nt v) st.queue 0 hfull]

/-- Witness for C6: binding into a half-full pool. -/
theorem C6_polyphony_note_on_allocation_witness :
    polyphony (initState 1 "polyphony") (mkNoteOn 0 60 100)
      = .ok ({ initState 1 "polyphony" with queue := [some (0, 60), none] },
             [(0, 60)]) ∧
    polyphony { initState 1 "polyphony" with
        queue := [some (0, 60), some (0, 64)] } (mkNoteOn 0 72 100)
      = .ok ({ initState 1 "polyphony" with
          queue := [some (0, 60), some (0, 64)] }, []) :=
  ⟨C6_polyphony_note_on_allocation.1 (initState 1 "polyphony") 0 60 100 []
      [none] (by decide) rfl (by simp) rfl,
   C6_polyphony_note_on_allocation.2.1
      { initState 1 "polyphony" with queue := [some (0, 60), some (0, 64)] }
      0 72 100 (by decide) (by decide)⟩

/-- C7: under polyphony a note-off (or a velocity-zero note-on) clears the
first slot — scanning from index 0 — whose binding equals
`(channel, note)` and issues exactly `(that slot, note_stop)`; when no
slot matches, the event is a no-op: no command, no state change. -/
theorem C7_polyphony_release (st : SCState) (msg : Msg) (c nt : Int)
    (hmsg : msg = mkNoteOff c nt ∨ msg = mkNoteOn c nt 0) :
    (∀ (a b : List (Option Pair)),
        st.queue = a ++ some (c, nt) :: b → (∀ s ∈ a, s ≠ some (c, nt)) →
        st.queue.length = 2 * st.ncontrollers →
        polyphony st msg
          = .ok ({ st with queue := a ++ none :: b },
                 [((a.length : Int), note_stop)]))
    ∧ ((∀ s ∈ st.queue, s ≠ some (c, nt)) → polyphony st msg = .ok (st, [])) := by
  have hpoly : polyphony st msg
      = match polyReleaseAux st.ncontrollers msg st.queue 0 with
        | .error e => .error e
        | .ok r => .ok ({ st with queue := r.1 }, r.2) := by
    rcases hmsg with rfl | rfl
    · rfl
    · rfl
  have hc : msg.channel = some c := by rcases hmsg with rfl | rfl <;> rfl
  have hn : msg.note = some nt := by rcases hmsg with rfl | rfl <;> rfl
  constructor
  · intro a b hq hnomatch hlen
    have halen : a.length < 2 * st.ncontrollers := by
      have hl2 := congrArg List.length hq
      simp at hl2
      omega
    have hpy : pyIndexOk st.ncontrollers
        (Int.fdiv ((0 + a.length : Nat) : Int) 2) :=
      pyIndexOk_half (by omega)
    have hm := polyReleaseAux_match st.ncontrollers msg c nt hc hn a b 0
      hnomatch hpy
    rw [hpoly, hq, hm]
    simp only []
    norm_num
  · intro hno
    rw [hpoly,
      polyReleaseAux_nomatch st.ncontrollers msg c nt hc hn st.queue 0 hno]

/-- Witness for C7: releasing the matching slot 0, and a spurious note-off
that matches nothing. -/
theorem C7_polyphony_release_witness :
    polyphony { initState 1 "polyphony" with queue := [some (0, 60), none] }
        (mkNoteOff 0 60)
      = .ok ({ initState 1 "polyphony" with queue := [none, none] },
             [(0, note_stop)]) ∧
    polyphony { initState 1 "polyphony" with queue := [some (0, 60), none] }
        (mkNoteOn 1 60 0)
      = .ok ({ initState 1 "polyphony" with queue := [some (0, 60), none] },
             []) :=
  ⟨(C7_polyphony_release _ (mkNoteOff 0 60) 0 60 (Or.inl rfl)).1 [] [none]
      rfl (by simp) rfl,
   (C7_polyphony_release _ (mkNoteOn 1 60 0) 1 60 (Or.inr rfl)).2 (by decide)⟩

/-- C1 (amended): the polyphony pool holds at most `K = 2·controllers`
simultaneous bindings (unconditionally — the pool has exactly K slots),
and no two occupied slots share a `(channel, note)` pair PROVIDED the
event stream never issues a velocity>0 note-on for a pair that is already
bound; the handler itself does not check for an existing binding (see the
counterexample: a repeated note-on binds the same pair twice). -/
theorem C1_polyphony_pool_invariant :
    (∀ (n : Nat) (msgs : List Msg) (st' : SCState),
        (sendAll (initState n "polyphony") msgs).2 = .ok st' →
        (occ st'.queue).length ≤ 2 * n)
    ∧ (∀ (n : Nat) (msgs : List Msg) (st' : SCState),
        freshTrace (initState n "polyphony") msgs = true →
        (sendAll (initState n "polyphony") msgs).2 = .ok st' →
        (occ st'.queue).Nodup) := by
  constructor
  · intro n msgs st' h
    have run := sendAll_poly_run msgs (initState n "polyphony") st' rfl h
    have hq : st'.queue.length = 2 * n := by
      rw [run.2.2.2.1]
      simp [initState]
    calc (occ st'.queue).length ≤ st'.queue.length := occ_length_le _
      _ = 2 * n := hq
  · intro n msgs st' hf h
    have run := sendAll_poly_run msgs (initState n "polyphony") st' rfl h
    exact run.2.2.2.2 (by simp [initState]) hf

/-- Witness for C1 after one note-on on a one-controller port. -/
theorem C1_polyphony_pool_invariant_witness :
    (occ [some ((0 : Int), (60 : Int)), none]).length ≤ 2 * 1 ∧
    (occ [some ((0 : Int), (60 : Int)), none]).Nodup :=
  ⟨C1_polyphony_pool_invariant.1 1 [mkNoteOn 0 60 100]
      { initState 1 "polyphony" with queue := [some (0, 60), none] } rfl,
   C1_polyphony_pool_invariant.2 1 [mkNoteOn 0 60 100]
      { initState 1 "polyphony" with queue := [some (0, 60), none] }
      (by decide) rfl⟩

/-- C1 counterexample: two identical note-ons bind the pair `(0, 60)` to
two distinct slots simultaneously — the no-duplicate part of the claim is
false for unrestricted event sequences. -/
theorem C1_duplicate_binding_counterexample :
    (sendAll (initState 1 "polyphony")
        [mkNoteOn 0 60 100, mkNoteOn 0 60 100]).2
      = .ok { initState 1 "polyphony" with
              queue := [some (0, 60), some (0, 60)] }
    ∧ ¬ (occ [some ((0 : Int), (60 : Int)), some (0, 60)]).Nodup :=
  ⟨rfl, by decide⟩
